import Mathlib

/-!
Verification of the feature-construction pipeline in `src/dataset.py`
(question-answering span extraction: sliding-window slicing, answer-span
alignment, max-context resolution, p_mask construction, feature numbering,
and example ingestion/validation).

Conventions of the embedding:
* Python lists become Lean `List`s; Python strings become Lean `String`s.
* Python integer arithmetic is modelled over `Int` wherever a value can go
  negative (window arithmetic, span relocation); otherwise `Nat`.
* The float score `min(left, right) + 0.01 * length` of the max-context
  functions is modelled exactly over the integers after scaling by 100:
  `100 * min(left, right) + length`, which orders identically to the exact
  rational value of the formula.
* The tokenizer is an external collaborator: its outputs (token lists,
  input ids, special-token masks, pad token id, padding side, cls index)
  are parameters of the embedded functions.
-/

/-- One sliding window over the tokenized context, as recorded by the
slicing loop of `convert_example_to_features` (`encoded_dict['start']`,
`encoded_dict['length']`). -/
structure DocSpan where
  start : Int
  length : Int
deriving DecidableEq

/-- A doc span presented in dict form, as consumed by
`_new_check_is_max_context` (string keys `"start"` and `"length"`). -/
def dictGet (d : List (String × Int)) (key : String) : Int :=
  (((d.find? (fun p => p.1 == key)).map Prod.snd)).getD 0

/-- The dict form of a doc span built by the slicing loop. -/
def toSpanDict (s : DocSpan) : List (String × Int) :=
  [("start", s.start), ("length", s.length)]

/-- `position` lies inside the span: `doc_span.start <= position <= end`
with `end = doc_span.start + doc_span.length - 1`. -/
def coversPos (s : DocSpan) (p : Int) : Prop :=
  s.start ≤ p ∧ p ≤ s.start + s.length - 1

instance (s : DocSpan) (p : Int) : Decidable (coversPos s p) := by
  unfold coversPos; infer_instance

/-- The max-context score of a covering span, scaled by 100:
`100 * min(num_left_context, num_right_context) + length` stands for
`min(...) + 0.01 * length`. -/
def spanScore (s : DocSpan) (p : Int) : Int :=
  100 * min (p - s.start) (s.start + s.length - 1 - p) + s.length

/-- The `enumerate` loop body of `_check_is_max_context`: fold over the
spans keeping `(best_score, best_span_index)`; a span is skipped unless it
covers `position`; the best is replaced only on a strictly greater score. -/
def bestSpanScan (position : Int) : List DocSpan → Nat → Option (Int × Nat) → Option (Int × Nat)
  | [], _, best => best
  | span :: rest, spanIndex, best =>
    if position < span.start then bestSpanScan position rest (spanIndex + 1) best
    else if position > span.start + span.length - 1 then bestSpanScan position rest (spanIndex + 1) best
    else
      let score := 100 * min (position - span.start) (span.start + span.length - 1 - position) + span.length
      match best with
      | none => bestSpanScan position rest (spanIndex + 1) (some (score, spanIndex))
      | some (bestScore, bestIndex) =>
        if score > bestScore then bestSpanScan position rest (spanIndex + 1) (some (score, spanIndex))
        else bestSpanScan position rest (spanIndex + 1) (some (bestScore, bestIndex))

/-- `_check_is_max_context(doc_spans, cur_span_index, position)`:
attribute-access version.  Python's `cur_span_index == best_span_index`
is `False` when `best_span_index is None`. -/
def check_is_max_context (docSpans : List DocSpan) (curSpanIndex : Nat) (position : Int) : Bool :=
  match bestSpanScan position docSpans 0 none with
  | none => false
  | some (_, bestIndex) => curSpanIndex == bestIndex

/-- The loop body of `_new_check_is_max_context`, identical to
`bestSpanScan` except every field is read through dict access. -/
def newBestSpanScan (position : Int) : List (List (String × Int)) → Nat → Option (Int × Nat) → Option (Int × Nat)
  | [], _, best => best
  | span :: rest, spanIndex, best =>
    if position < dictGet span "start" then newBestSpanScan position rest (spanIndex + 1) best
    else if position > dictGet span "start" + dictGet span "length" - 1 then
      newBestSpanScan position rest (spanIndex + 1) best
    else
      let score := 100 * min (position - dictGet span "start")
        (dictGet span "start" + dictGet span "length" - 1 - position) + dictGet span "length"
      match best with
      | none => newBestSpanScan position rest (spanIndex + 1) (some (score, spanIndex))
      | some (bestScore, bestIndex) =>
        if score > bestScore then newBestSpanScan position rest (spanIndex + 1) (some (score, spanIndex))
        else newBestSpanScan position rest (spanIndex + 1) (some (bestScore, bestIndex))

/-- `_new_check_is_max_context(doc_spans, cur_span_index, position)`:
dict-access version. -/
def new_check_is_max_context (docSpans : List (List (String × Int))) (curSpanIndex : Nat) (position : Int) : Bool :=
  match newBestSpanScan position docSpans 0 none with
  | none => false
  | some (_, bestIndex) => curSpanIndex == bestIndex

/-- `''.join(doc_tokens[s:(e + 1)])`. -/
def sliceJoin (doc : List String) (s e : Nat) : String :=
  String.join ((doc.drop s).take (e + 1 - s))

/-- The slice `doc_tokens[s:(e + 1)]` is a genuine span (`s ≤ e < len`)
whose concatenation equals the concatenation of `answer_tokens`. -/
def isMatchSpan (doc ans : List String) (s e : Nat) : Prop :=
  s ≤ e ∧ e < doc.length ∧ sliceJoin doc s e = String.join ans

instance (doc ans : List String) (s e : Nat) : Decidable (isMatchSpan doc ans s e) := by
  unfold isMatchSpan; infer_instance

/-- Inner loop of `_improve_answer_span`: scan `new_end` downward from `e`
to `new_start`, returning the first end whose slice concatenation matches. -/
def scanAnswerEnd (doc ans : List String) (s : Nat) : Nat → Option Nat
  | 0 => if sliceJoin doc s 0 = String.join ans then some 0 else none
  | e + 1 =>
    if sliceJoin doc s (e + 1) = String.join ans then some (e + 1)
    else if e + 1 ≤ s then none
    else scanAnswerEnd doc ans s e

/-- Outer loop of `_improve_answer_span`: scan `new_start` upward; `rem`
counts the starts not yet tried (`len(doc_tokens) - s`). -/
def scanAnswerStart (doc ans : List String) : Nat → Nat → Option (Nat × Nat)
  | 0, _ => none
  | rem + 1, s =>
    match scanAnswerEnd doc ans s (doc.length - 1) with
    | some e => some (s, e)
    | none => scanAnswerStart doc ans rem (s + 1)

/-- `_improve_answer_span(doc_tokens, answer_tokens, input_start, input_end)`:
double scan over all starts (ascending) and ends (descending), returning
the first slice whose concatenation equals the answer concatenation, and
the fallback pair when no slice matches. -/
def improve_answer_span (doc ans : List String) (inputStart inputEnd : Nat) : Nat × Nat :=
  match scanAnswerStart doc ans doc.length 0 with
  | some (s, e) => (s, e)
  | none => (inputStart, inputEnd)

/-- The window-producing loop of `convert_example_to_features`: while
`len(spans) * doc_stride < len(doc_tokens)` emit window `k` with start
`k * doc_stride` and length
`min(len(doc_tokens) - k * doc_stride, budget)`; after emitting a window
the loop breaks when the tokenizer reports no `overflowing_tokens`.
Modelled from the spec: the overflow test itself is tokenizer behaviour
(an external collaborator); per the spec's tokenizer contract the leftover
suffix handed to the next iteration shrinks by `doc_stride` per window, so
`overflowing_tokens` is empty exactly when the remaining
`len(doc_tokens) - k * doc_stride` context tokens fit the budget.
`fuel` bounds the iteration count; the wrapper supplies enough fuel for
any positive stride. -/
def sliceSpansAux (docLen budget stride : Int) : Nat → Nat → List (Int × Int)
  | 0, _ => []
  | fuel + 1, k =>
    if (k : Int) * stride < docLen then
      ((k : Int) * stride, min (docLen - (k : Int) * stride) budget) ::
        (if docLen - (k : Int) * stride ≤ budget then []
          else sliceSpansAux docLen budget stride fuel (k + 1))
    else []

/-- Windows produced for a context of `docLen` tokens, where the per-window
context budget is `max_seq_length - len(truncated_query) - sequence_pair_added_tokens`;
slicing stops at the first window that produces no overflow tokens. -/
def sliceSpans (docLen maxSeqLen queryLen pairAdded stride : Int) : List (Int × Int) :=
  sliceSpansAux docLen (maxSeqLen - queryLen - pairAdded) stride docLen.toNat 0

/-- `token_to_orig_map` of one window: for `i in range(paragraph_len)` the
key is `len(truncated_query) + sequence_added_tokens + i` (no dependence on
the padding side) and the value is `len(spans) * doc_stride + i`, i.e. the
window start plus `i`. -/
def build_token_to_orig_map (queryLen seqAdded spanStart paragraphLen : Nat) : List (Nat × Nat) :=
  (List.range paragraphLen).map (fun i => (queryLen + seqAdded + i, spanStart + i))

/-- The key under which `token_is_max_context[...]` is stored: `j` when the
tokenizer pads on the left, `truncated_query_with_special_tokens_length + j`
otherwise. -/
def token_is_max_context_key (paddingSideLeft : Bool) (queryWithSpecialLen j : Nat) : Nat :=
  if paddingSideLeft then j else queryWithSpecialLen + j

/-- Pointwise indexed update of a list, used to embed the numpy writes on
`p_mask` (`p_mask[slice or index array] = value`). -/
def updIdx (f : Nat → Nat → Nat) : List Nat → Nat → List Nat
  | [], _ => []
  | v :: rest, i => f i v :: updIdx f rest (i + 1)

/-- `p_mask` exactly as built by the source: all ones over the shape of
`token_type_ids`; everything from `len(truncated_query) + sequence_added_tokens`
on (the whole suffix) set to 0; pad-token positions back to 1;
special-token positions back to 1; finally the CLS position forced to 0. -/
def pMaskFromCode (tokenTypeIds inputIds : List Nat) (padTokenId : Nat)
    (specialMask : List Nat) (clsIndex queryLen seqAdded : Nat) : List Nat :=
  let m0 := List.replicate tokenTypeIds.length 1
  let m1 := updIdx (fun i v => if queryLen + seqAdded ≤ i then 0 else v) m0 0
  let m2 := updIdx (fun i v => if inputIds.getD i (padTokenId + 1) = padTokenId then 1 else v) m1 0
  let m3 := updIdx (fun i v => if specialMask.getD i 0 ≠ 0 then 1 else v) m2 0
  updIdx (fun i v => if i = clsIndex then 0 else v) m3 0

/-- Modelled from the claim's wording, for comparison with `pMaskFromCode`:
identical except that the zeroing step touches only the positions occupied
by the window's context tokens
(`[queryLen + seqAdded, queryLen + seqAdded + paragraphLen)`) instead of
the whole suffix. -/
def pMaskDescribed (tokenTypeIds inputIds : List Nat) (padTokenId : Nat)
    (specialMask : List Nat) (clsIndex queryLen seqAdded paragraphLen : Nat) : List Nat :=
  let m0 := List.replicate tokenTypeIds.length 1
  let m1 := updIdx (fun i v =>
    if queryLen + seqAdded ≤ i ∧ i < queryLen + seqAdded + paragraphLen then 0 else v) m0 0
  let m2 := updIdx (fun i v => if inputIds.getD i (padTokenId + 1) = padTokenId then 1 else v) m1 0
  let m3 := updIdx (fun i v => if specialMask.getD i 0 ≠ 0 then 1 else v) m2 0
  updIdx (fun i v => if i = clsIndex then 0 else v) m3 0

/-- The training-time answer relocation of the per-span loop:
`span_is_impossible = example.is_impossible`; `start = end = 0`; when
training and not impossible, the gold token span is compared with
`[span.start, span.start + span.length - 1]`: out-of-span windows get
`(cls_index, cls_index, True)`, in-span windows get the positions shifted
by `doc_offset = len(truncated_query) + sequence_added_tokens`. -/
def relocate_answer_span (isTraining exampleIsImpossible : Bool) (clsIndex : Int)
    (tokStartPosition tokEndPosition : Int) (span : DocSpan) (docOffset : Int) : Int × Int × Bool :=
  if isTraining = true ∧ exampleIsImpossible = false then
    if ¬(tokStartPosition ≥ span.start ∧ tokEndPosition ≤ span.start + span.length - 1) then
      (clsIndex, clsIndex, true)
    else
      (tokStartPosition - span.start + docOffset, tokEndPosition - span.start + docOffset, false)
  else (0, 0, exampleIsImpossible)

/-- The per-span emission loop (`for span in spans: ... features.append(...)`):
one `(start_position, end_position, is_impossible)` record per window,
none dropped. -/
def emit_features (spans : List DocSpan) (isTraining exampleIsImpossible : Bool)
    (clsIndex tokStartPosition tokEndPosition docOffset : Int) : List (Int × Int × Bool) :=
  spans.map (fun span =>
    relocate_answer_span isTraining exampleIsImpossible clsIndex tokStartPosition tokEndPosition span docOffset)

/-- Inner loop of the id-assignment pass in `convert_examples_to_features`:
each feature of one example receives the running `unique_id`, which is then
incremented; `eidx` is the `example_index` stamped on the whole block. -/
def numberFeatures (eidx : Nat) : List α → Nat → List (α × Nat × Nat)
  | [], _ => []
  | f :: rest, uid => (f, eidx, uid) :: numberFeatures eidx rest (uid + 1)

/-- Outer loop of the id-assignment pass: empty per-example feature lists
are skipped (`if not example_features: continue`) without consuming an
`example_index`; otherwise the block is numbered and `example_index`
advances by one. -/
def assignIds : List (List α) → Nat → Nat → List (α × Nat × Nat)
  | [], _, _ => []
  | fs :: rest, uid, eidx =>
    if fs.isEmpty then assignIds rest uid eidx
    else numberFeatures eidx fs uid ++ assignIds rest (uid + fs.length) (eidx + 1)

/-- The id-assignment pass of `convert_examples_to_features`, started at
`unique_id = 1000000000`, `example_index = 0`. -/
def addExampleIndexAndUniqueId (featureLists : List (List α)) : List (α × Nat × Nat) :=
  assignIds featureLists 1000000000 0

/-- Number of examples that contribute at least one feature. -/
def countNonEmpty (featureLists : List (List α)) : Nat :=
  (featureLists.filter (fun l => !l.isEmpty)).length

/-- Total number of features over all examples. -/
def sumLens (featureLists : List (List α)) : Nat :=
  (featureLists.map List.length).sum

/-- One `{"text", "answer_start"}` record of the raw dataset. -/
structure RawAnswer where
  text : String
  answer_start : Nat
deriving DecidableEq

/-- One `qas` entry of the raw dataset. -/
structure RawQA where
  id : Nat
  question : String
  is_challenge : Bool
  is_impossible : Bool
  answers : List RawAnswer
deriving DecidableEq

/-- One paragraph of the raw dataset. -/
structure RawParagraph where
  context : String
  qas : List RawQA
deriving DecidableEq

/-- One `data` entry of the raw dataset. -/
structure RawEntry where
  title : String
  paragraphs : List RawParagraph
deriving DecidableEq

/-- `AlibabaExample`, with the character span derived at construction. -/
structure AlibabaExample where
  qas_id : Nat
  question_text : String
  context_text : String
  answer_text : Option String
  title : String
  is_impossible : Bool
  is_challenge : Bool
  answers : List RawAnswer
  start_position : Nat
  end_position : Nat
deriving DecidableEq

/-- `AlibabaExample.__init__`: when the example is not impossible and
`answer_text` is truthy (present and non-empty, Python truthiness),
`start_position = start_position_character` and
`end_position = start_position_character + len(answer_text) - 1`;
otherwise both positions are 0. -/
def AlibabaExample.make (qas_id : Nat) (question_text context_text : String)
    (answer_text : Option String) (start_position_character : Option Nat)
    (title : String) (answers : List RawAnswer) (is_impossible is_challenge : Bool) :
    AlibabaExample :=
  if is_impossible = false ∧ answer_text.getD "" ≠ "" then
    { qas_id := qas_id, question_text := question_text, context_text := context_text,
      answer_text := answer_text, title := title, is_impossible := is_impossible,
      is_challenge := is_challenge, answers := answers,
      start_position := start_position_character.getD 0,
      end_position := start_position_character.getD 0 + (answer_text.getD "").length - 1 }
  else
    { qas_id := qas_id, question_text := question_text, context_text := context_text,
      answer_text := answer_text, title := title, is_impossible := is_impossible,
      is_challenge := is_challenge, answers := answers,
      start_position := 0, end_position := 0 }

/-- The per-qa example construction inside `AlibabaProcessor._create_examples`:
for a possible example in training mode the first raw answer supplies
`answer_text` and `start_position_character`; in evaluation mode the raw
answers are kept; impossible examples carry neither. -/
def exampleOfQA (title context : String) (isTraining : Bool) (qa : RawQA) : AlibabaExample :=
  let answerText : Option String :=
    if qa.is_impossible = false ∧ isTraining = true then some (qa.answers.headD ⟨"", 0⟩).text
    else none
  let startChar : Option Nat :=
    if qa.is_impossible = false ∧ isTraining = true then some (qa.answers.headD ⟨"", 0⟩).answer_start
    else none
  let exAnswers : List RawAnswer :=
    if qa.is_impossible = false ∧ isTraining = false then qa.answers else []
  AlibabaExample.make qa.id qa.question context answerText startChar title exAnswers
    qa.is_impossible qa.is_challenge

/-- The rejection test of `_create_examples`: empty question text, or (in
training mode, possible example) the character-offset substring
`context_text[start_position:(end_position + 1)]` differing from
`answer_text`. -/
def rejectExample (isTraining : Bool) (e : AlibabaExample) : Bool :=
  if e.question_text = "" then true
  else if isTraining = true ∧ e.is_impossible = false ∧
      (e.context_text.drop e.start_position).take (e.end_position + 1 - e.start_position) ≠ e.answer_text.getD "" then
    true
  else false

/-- The triple-nested iteration order of `_create_examples`: every
`(title, context, qa)` triple in input order. -/
def qaTriples (input_data : List RawEntry) : List (String × String × RawQA) :=
  input_data.flatMap (fun entry =>
    entry.paragraphs.flatMap (fun para =>
      para.qas.map (fun qa => (entry.title, para.context, qa))))

/-- The loop body of `_create_examples`: on a rejected qa, append its id to
`invalid_examples`; otherwise append the constructed example to `examples`. -/
def createExamplesStep (isTraining : Bool) (acc : List AlibabaExample × List Nat)
    (t : String × String × RawQA) : List AlibabaExample × List Nat :=
  let e := exampleOfQA t.1 t.2.1 isTraining t.2.2
  if rejectExample isTraining e then (acc.1, acc.2 ++ [e.qas_id])
  else (acc.1 ++ [e], acc.2)

/-- `AlibabaProcessor._create_examples`: accepted examples accumulate in
`examples`, rejected qas contribute their id to `invalid_examples`, both in
input order. -/
def create_examples (input_data : List RawEntry) (isTraining : Bool) :
    List AlibabaExample × List Nat :=
  (qaTriples input_data).foldl (createExamplesStep isTraining) ([], [])

/-- A small concrete raw dataset used to exercise `create_examples`:
one qa with an empty question, one valid qa, one qa whose annotated
character span does not reproduce its answer text. -/
def sampleRawData : List RawEntry :=
  [⟨"t", [⟨"hello", [⟨1, "", false, false, [⟨"he", 0⟩]⟩,
                     ⟨2, "q2", false, false, [⟨"he", 0⟩]⟩,
                     ⟨3, "q3", false, false, [⟨"xy", 0⟩]⟩]⟩]⟩]

example : improve_answer_span ["ab", "c", "ab"] ["a", "bc"] 5 7 = (0, 1) := by decide
example : improve_answer_span ["a"] ["b"] 3 4 = (3, 4) := by decide
example : sliceSpans 5 10 2 3 2 = [(0, 5)] := by decide
example : sliceSpans 10 8 3 0 2 = [(0, 5), (2, 5), (4, 5), (6, 4)] := by decide
example : sliceSpans 1 2 2 0 1 = [(0, 0)] := by decide
example : check_is_max_context [⟨0, 3⟩, ⟨2, 3⟩] 0 2 = true := by decide
example : check_is_max_context [⟨0, 3⟩, ⟨2, 3⟩] 1 2 = false := by decide
example : new_check_is_max_context [toSpanDict ⟨0, 3⟩, toSpanDict ⟨2, 3⟩] 0 2 = true := by decide
example : addExampleIndexAndUniqueId [[10], [], [20]] =
    [(10, 0, 1000000000), (20, 1, 1000000001)] := by decide
example : relocate_answer_span true true 5 0 0 ⟨0, 3⟩ 4 = (0, 0, true) := by decide

theorem dictGet_start (s : DocSpan) : dictGet (toSpanDict s) "start" = s.start := rfl

theorem dictGet_length (s : DocSpan) : dictGet (toSpanDict s) "length" = s.length := rfl

theorem newBestSpanScan_map (p : Int) (l : List DocSpan) : ∀ (idx : Nat) (b : Option (Int × Nat)),
    newBestSpanScan p (l.map toSpanDict) idx b = bestSpanScan p l idx b := by
  induction l with
  | nil => intro idx b; rfl
  | cons s rest ih =>
    intro idx b
    simp only [List.map_cons, newBestSpanScan, bestSpanScan, dictGet_start, dictGet_length]
    by_cases h1 : p < s.start
    · simp only [if_pos h1, ih]
    · by_cases h2 : p > s.start + s.length - 1
      · simp only [if_neg h1, if_pos h2, ih]
      · cases b with
        | none => simp only [if_neg h1, if_neg h2, ih]
        | some pr =>
          obtain ⟨bs, bi⟩ := pr
          by_cases h3 : 100 * min (p - s.start) (s.start + s.length - 1 - p) + s.length > bs
          · simp only [if_neg h1, if_neg h2, if_pos h3, ih]
          · simp only [if_neg h1, if_neg h2, if_neg h3, ih]

/-- C10: the attribute-access `_check_is_max_context` and the dict-access
`_new_check_is_max_context` compute the same boolean whenever they receive
the same start/length data, the one through attributes of `DocSpan`, the
other through the dict keys `"start"`/`"length"`. -/
theorem spec_c10_check_functions_agree (docSpans : List DocSpan) (curSpanIndex : Nat) (position : Int) :
    new_check_is_max_context (docSpans.map toSpanDict) curSpanIndex position =
      check_is_max_context docSpans curSpanIndex position := by
  unfold new_check_is_max_context check_is_max_context
  rw [newBestSpanScan_map]

/-- C9: `AlibabaExample` derives `start_position = start_position_character`
and `end_position = start_position_character + len(answer_text) - 1` when
the example is possible and `answer_text` is truthy (present and
non-empty); in every other case (impossible, or no/empty answer text,
which Python treats as falsy) both positions are 0. -/
theorem spec_c9_char_span_derivation (qid : Nat) (q c : String) (ans : Option String)
    (spc : Nat) (ttl : String) (answers : List RawAnswer) (imp chal : Bool) :
    ((imp = false ∧ ans.getD "" ≠ "") →
      (AlibabaExample.make qid q c ans (some spc) ttl answers imp chal).start_position = spc ∧
      (AlibabaExample.make qid q c ans (some spc) ttl answers imp chal).end_position =
        spc + (ans.getD "").length - 1) ∧
    ((imp = true ∨ ans.getD "" = "") →
      (AlibabaExample.make qid q c ans (some spc) ttl answers imp chal).start_position = 0 ∧
      (AlibabaExample.make qid q c ans (some spc) ttl answers imp chal).end_position = 0) := by
  constructor
  · intro h
    unfold AlibabaExample.make
    rw [if_pos h]
    exact ⟨rfl, rfl⟩
  · intro h
    unfold AlibabaExample.make
    rw [if_neg ?hneg]
    · exact ⟨rfl, rfl⟩
    · rcases h with h | h
      · intro hc; rw [h] at hc; exact absurd hc.1 (by simp)
      · intro hc; exact hc.2 h

theorem spec_c9_witness :
    (((false : Bool) = false ∧ ((some "ab" : Option String)).getD "" ≠ "") ∧
      (AlibabaExample.make 1 "q" "ctx" (some "ab") (some 5) "t" [] false false).start_position = 5 ∧
      (AlibabaExample.make 1 "q" "ctx" (some "ab") (some 5) "t" [] false false).end_position = 6) ∧
    (((true : Bool) = true ∨ ((none : Option String)).getD "" = "") ∧
      (AlibabaExample.make 2 "q" "ctx" none (some 5) "t" [] true false).start_position = 0 ∧
      (AlibabaExample.make 2 "q" "ctx" none (some 5) "t" [] true false).end_position = 0) :=
  ⟨⟨by decide, by
      simpa using (spec_c9_char_span_derivation 1 "q" "ctx" (some "ab") 5 "t" [] false false).1
        (by decide)⟩,
   ⟨Or.inl rfl, (spec_c9_char_span_derivation 2 "q" "ctx" none 5 "t" [] true false).2 (Or.inl rfl)⟩⟩

/-- C1 counterexample: in training mode, a window of an example marked
impossible gets `start_position = end_position = 0`, not `cls_index`: at
`cls_index = 5` the code emits `(0, 0, True)` where the claim requires
`(5, 5, True)`. -/
theorem spec_c1_counterexample :
    relocate_answer_span true true 5 0 0 ⟨0, 3⟩ 4 = (0, 0, true) ∧
      relocate_answer_span true true 5 0 0 ⟨0, 3⟩ 4 ≠ (5, 5, true) := by decide

/-- C1 amended: in training mode a feature is emitted for every window;
a window of an impossible example gets `start = end = 0` and
`is_impossible = true` (the CLS index is used only in the out-of-span
case); a window of a possible example whose gold token span is not inside
`[span.start, span.start + span.length - 1]` gets
`start = end = cls_index` and `is_impossible = true`; otherwise the gold
positions are shifted by `doc_offset - span.start`. -/
theorem spec_c1_amended (spans : List DocSpan) (exampleIsImpossible : Bool)
    (clsIndex tokStartPosition tokEndPosition docOffset : Int) :
    (emit_features spans true exampleIsImpossible clsIndex tokStartPosition tokEndPosition
      docOffset).length = spans.length ∧
    ∀ span : DocSpan,
      (exampleIsImpossible = true →
        relocate_answer_span true exampleIsImpossible clsIndex tokStartPosition tokEndPosition
          span docOffset = (0, 0, true)) ∧
      (exampleIsImpossible = false →
        ¬(tokStartPosition ≥ span.start ∧ tokEndPosition ≤ span.start + span.length - 1) →
        relocate_answer_span true exampleIsImpossible clsIndex tokStartPosition tokEndPosition
          span docOffset = (clsIndex, clsIndex, true)) ∧
      (exampleIsImpossible = false →
        (tokStartPosition ≥ span.start ∧ tokEndPosition ≤ span.start + span.length - 1) →
        relocate_answer_span true exampleIsImpossible clsIndex tokStartPosition tokEndPosition
          span docOffset =
          (tokStartPosition - span.start + docOffset, tokEndPosition - span.start + docOffset,
            false)) := by
  refine ⟨List.length_map _ _, ?_⟩
  intro span
  refine ⟨?_, ?_, ?_⟩
  · intro h
    subst h
    unfold relocate_answer_span
    rw [if_neg (by simp)]
  · intro h hout
    subst h
    unfold relocate_answer_span
    rw [if_pos ⟨rfl, rfl⟩, if_pos hout]
  · intro h hin
    subst h
    unfold relocate_answer_span
    rw [if_pos ⟨rfl, rfl⟩, if_neg (by simpa using hin)]

theorem spec_c1_witness :
    (emit_features [⟨2, 3⟩] true false 0 2 3 7).length = 1 ∧
    ((false : Bool) = false ∧ ((2 : Int) ≥ 2 ∧ (3 : Int) ≤ 2 + 3 - 1)) ∧
    relocate_answer_span true false 0 2 3 ⟨2, 3⟩ 7 = (7, 8, false) :=
  ⟨(spec_c1_amended [⟨2, 3⟩] false 0 2 3 7).1, ⟨rfl, by decide⟩, by
    simpa using ((spec_c1_amended [⟨2, 3⟩] false 0 2 3 7).2 ⟨2, 3⟩).2.2 rfl (by decide)⟩

/-- C3 counterexample: the `token_to_orig_map` key for local paragraph
index `i = 0` with `len(truncated_query) = 2`, `sequence_added_tokens = 1`
is always `3`, even under left padding, whereas the padding-side-dependent
arithmetic used for the `token_is_max_context` keys would give `0`. -/
theorem spec_c3_counterexample :
    build_token_to_orig_map 2 1 5 1 = [(3, 5)] ∧
      (build_token_to_orig_map 2 1 5 1).map Prod.fst ≠
        (List.range 1).map (token_is_max_context_key true (2 + 1)) := by decide

/-- C3 amended: `token_to_orig_map` maps local index
`len(truncated_query) + sequence_added_tokens + i` to original context
token index `window.start + i` for every `i < paragraph_len`, with no
dependence on the padding side: its keys always follow the right-padding
arithmetic of `token_is_max_context_key`; only the `token_is_max_context`
keys switch arithmetic when padding is on the left. -/
theorem spec_c3_amended (queryLen seqAdded spanStart paragraphLen : Nat) :
    (∀ kv ∈ build_token_to_orig_map queryLen seqAdded spanStart paragraphLen,
      ∃ i, i < paragraphLen ∧ kv = (queryLen + seqAdded + i, spanStart + i)) ∧
    (∀ i, i < paragraphLen →
      (queryLen + seqAdded + i, spanStart + i) ∈
        build_token_to_orig_map queryLen seqAdded spanStart paragraphLen) ∧
    (build_token_to_orig_map queryLen seqAdded spanStart paragraphLen).map Prod.fst =
      (List.range paragraphLen).map (token_is_max_context_key false (queryLen + seqAdded)) := by
  refine ⟨?_, ?_, ?_⟩
  · intro kv hkv
    unfold build_token_to_orig_map at hkv
    obtain ⟨i, hi, hkv⟩ := List.mem_map.mp hkv
    exact ⟨i, List.mem_range.mp hi, hkv.symm⟩
  · intro i hi
    unfold build_token_to_orig_map
    exact List.mem_map.mpr ⟨i, List.mem_range.mpr hi, rfl⟩
  · unfold build_token_to_orig_map token_is_max_context_key
    simp [List.map_map]

theorem spec_c3_witness :
    ((2 + 1 + 0, 5 + 0) ∈ build_token_to_orig_map 2 1 5 1) ∧
    (∃ i, i < 1 ∧ ((3, 5) : Nat × Nat) = (2 + 1 + i, 5 + i)) :=
  ⟨(spec_c3_amended 2 1 5 1).2.1 0 (by decide),
   (spec_c3_amended 2 1 5 1).1 (3, 5) (by decide)⟩

theorem numberFeatures_length {α : Type _} (eidx : Nat) (l : List α) :
    ∀ (uid : Nat), (numberFeatures eidx l uid).length = l.length := by
  induction l with
  | nil => intro uid; rfl
  | cons f rest ih => intro uid; simp [numberFeatures, ih]

theorem numberFeatures_get? {α : Type _} (eidx : Nat) (l : List α) :
    ∀ (uid k : Nat),
      (numberFeatures eidx l uid).get? k = (l.get? k).map (fun f => (f, eidx, uid + k)) := by
  induction l with
  | nil => intro uid k; simp [numberFeatures]
  | cons f rest ih =>
    intro uid k
    cases k with
    | zero => simp [numberFeatures]
    | succ k =>
      have harith : uid + 1 + k = uid + (k + 1) := by omega
      simpa [numberFeatures, harith] using ih (uid + 1) k

theorem assignIds_cons_empty {α : Type _} (fs : List α) (rest : List (List α)) (uid eidx : Nat)
    (hemp : fs.isEmpty = true) :
    assignIds (fs :: rest) uid eidx = assignIds rest uid eidx := by
  simp [assignIds, hemp]

theorem assignIds_cons_nonempty {α : Type _} (fs : List α) (rest : List (List α)) (uid eidx : Nat)
    (hemp : fs.isEmpty = false) :
    assignIds (fs :: rest) uid eidx =
      numberFeatures eidx fs uid ++ assignIds rest (uid + fs.length) (eidx + 1) := by
  simp [assignIds, hemp]

theorem assignIds_get?_uid {α : Type _} (L : List (List α)) :
    ∀ (uid eidx k : Nat) (x : α × Nat × Nat),
      (assignIds L uid eidx).get? k = some x → x.2.2 = uid + k := by
  induction L with
  | nil => intro uid eidx k x h; simp [assignIds] at h
  | cons fs rest ih =>
    intro uid eidx k x h
    by_cases hemp : fs.isEmpty
    · rw [assignIds_cons_empty fs rest uid eidx hemp] at h
      exact ih uid eidx k x h
    · rw [assignIds_cons_nonempty fs rest uid eidx (by simpa using hemp)] at h
      by_cases hk : k < (numberFeatures eidx fs uid).length
      · rw [List.get?_append hk] at h
        rw [numberFeatures_get?] at h
        cases hfk : fs.get? k with
        | none => rw [hfk] at h; simp at h
        | some f =>
          rw [hfk] at h
          simp only [Option.map_some'] at h
          rw [← Option.some.inj h]
      · push_neg at hk
        rw [List.get?_append_right hk] at h
        have hres := ih (uid + fs.length) (eidx + 1) (k - (numberFeatures eidx fs uid).length) x h
        rw [numberFeatures_length] at hres hk
        omega

theorem numberFeatures_mem_eidx {α : Type _} (eidx : Nat) (l : List α) :
    ∀ (uid : Nat) (x : α × Nat × Nat), x ∈ numberFeatures eidx l uid → x.2.1 = eidx := by
  induction l with
  | nil => intro uid x h; simp [numberFeatures] at h
  | cons f rest ih =>
    intro uid x h
    rcases List.mem_cons.mp h with h | h
    · rw [h]
    · exact ih (uid + 1) x h

theorem assignIds_mem_eidx_le {α : Type _} (L : List (List α)) :
    ∀ (uid eidx : Nat) (x : α × Nat × Nat), x ∈ assignIds L uid eidx → eidx ≤ x.2.1 := by
  induction L with
  | nil => intro uid eidx x h; simp [assignIds] at h
  | cons fs rest ih =>
    intro uid eidx x h
    by_cases hemp : fs.isEmpty
    · rw [assignIds_cons_empty fs rest uid eidx hemp] at h
      exact ih uid eidx x h
    · rw [assignIds_cons_nonempty fs rest uid eidx (by simpa using hemp)] at h
      rcases List.mem_append.mp h with h | h
      · rw [numberFeatures_mem_eidx eidx fs uid x h]
      · have := ih (uid + fs.length) (eidx + 1) x h
        omega

theorem numberFeatures_pairwise {α : Type _} (eidx : Nat) (l : List α) :
    ∀ (uid : Nat),
      List.Pairwise (fun a b : α × Nat × Nat => a.2.1 ≤ b.2.1) (numberFeatures eidx l uid) := by
  induction l with
  | nil => intro uid; simp [numberFeatures]
  | cons f rest ih =>
    intro uid
    refine List.Pairwise.cons ?_ (ih (uid + 1))
    intro y hy
    rw [numberFeatures_mem_eidx eidx rest (uid + 1) y hy]

theorem assignIds_pairwise {α : Type _} (L : List (List α)) :
    ∀ (uid eidx : Nat),
      List.Pairwise (fun a b : α × Nat × Nat => a.2.1 ≤ b.2.1) (assignIds L uid eidx) := by
  induction L with
  | nil => intro uid eidx; simp [assignIds]
  | cons fs rest ih =>
    intro uid eidx
    by_cases hemp : fs.isEmpty
    · rw [assignIds_cons_empty fs rest uid eidx hemp]
      exact ih uid eidx
    · rw [assignIds_cons_nonempty fs rest uid eidx (by simpa using hemp)]
      rw [List.pairwise_append]
      refine ⟨numberFeatures_pairwise eidx fs uid, ih (uid + fs.length) (eidx + 1), ?_⟩
      intro a ha b hb
      have h1 := numberFeatures_mem_eidx eidx fs uid a ha
      have h2 := assignIds_mem_eidx_le rest (uid + fs.length) (eidx + 1) b hb
      omega

theorem numberFeatures_mem_get {α : Type _} (eidx : Nat) (l : List α) :
    ∀ (uid k : Nat) (hk : k < l.length),
      (l.get ⟨k, hk⟩, eidx, uid + k) ∈ numberFeatures eidx l uid := by
  induction l with
  | nil => intro uid k hk; exact absurd hk (by simp)
  | cons f rest ih =>
    intro uid k hk
    cases k with
    | zero => simp [numberFeatures]
    | succ k =>
      have harith : uid + (k + 1) = uid + 1 + k := by omega
      have hk' : k < rest.length := by simpa using hk
      have := ih (uid + 1) k hk'
      have hcons : numberFeatures eidx (f :: rest) uid =
          (f, eidx, uid) :: numberFeatures eidx rest (uid + 1) := rfl
      rw [show (f :: rest).get ⟨k + 1, hk⟩ = rest.get ⟨k, hk'⟩ from rfl, harith, hcons]
      exact List.mem_cons_of_mem _ this

theorem assignIds_block_mem {α : Type _} (L : List (List α)) :
    ∀ (uid eidx j : Nat) (hj : j < L.length) (k : Nat) (hk : k < (L.get ⟨j, hj⟩).length),
      ((L.get ⟨j, hj⟩).get ⟨k, hk⟩, eidx + countNonEmpty (L.take j),
        uid + sumLens (L.take j) + k) ∈ assignIds L uid eidx := by
  induction L with
  | nil => intro uid eidx j hj; exact absurd hj (by simp)
  | cons fs rest ih =>
    intro uid eidx j hj k hk
    cases j with
    | zero =>
      have hemp : fs.isEmpty = false := by
        cases fs with
        | nil => exact absurd hk (by simp [show ((([] : List α) :: rest)).get ⟨0, hj⟩ = [] from rfl])
        | cons a as => rfl
      rw [assignIds_cons_nonempty fs rest uid eidx hemp]
      refine List.mem_append_left _ ?_
      simpa [countNonEmpty, sumLens] using
        numberFeatures_mem_get eidx fs uid k (show k < fs.length from hk)
    | succ j =>
      have hj' : j < rest.length := by simpa using hj
      have hget : (fs :: rest).get ⟨j + 1, hj⟩ = rest.get ⟨j, hj'⟩ := rfl
      by_cases hemp : fs.isEmpty
      · have hfs : fs = [] := by
          cases fs with
          | nil => rfl
          | cons a as => simp [List.isEmpty] at hemp
        subst hfs
        rw [assignIds_cons_empty [] rest uid eidx rfl]
        have := ih uid eidx j hj' k (show k < (rest.get ⟨j, hj'⟩).length from hk)
        simpa [countNonEmpty, sumLens, hget] using this
      · rw [assignIds_cons_nonempty fs rest uid eidx (by simpa using hemp)]
        refine List.mem_append_right _ ?_
        have hmem := ih (uid + fs.length) (eidx + 1) j hj' k
          (show k < (rest.get ⟨j, hj'⟩).length from hk)
        have h1 : eidx + countNonEmpty ((fs :: rest).take (j + 1)) =
            eidx + 1 + countNonEmpty (rest.take j) := by
          have hemp' : fs.isEmpty = false := by simpa using hemp
          simp only [List.take_succ_cons, countNonEmpty, List.filter_cons, hemp']
          simp [List.length_cons]
          omega
        have h2 : uid + sumLens ((fs :: rest).take (j + 1)) + k =
            uid + fs.length + sumLens (rest.take j) + k := by
          simp only [List.take_succ_cons, sumLens, List.map_cons, List.sum_cons]
          omega
        rw [h1, h2]
        exact hmem

/-- C7 counterexample: with per-example feature lists `[[10], [], [20]]`
(the middle example produced zero features, possible e.g. for an empty
context), the single feature of example 2 carries `example_index = 1`, not
`2`: skipped empty examples do not consume an `example_index`. -/
theorem spec_c7_counterexample :
    ¬ (∀ x ∈ addExampleIndexAndUniqueId [[10], [], [20]], x.1 = 20 → x.2.1 = 2) := by decide

/-- C7 amended: over a list of per-example feature lists the assignment
pass gives output position `k` the `unique_id` `1000000000 + k` (strictly
increasing from the fixed base in output order), `example_index` is
non-decreasing in output order, and feature `k` of example `j` carries
`example_index` equal to the number of *non-empty* examples before `j`
(examples with zero features are skipped without consuming an index) and
`unique_id` equal to the base plus the number of features before it. -/
theorem spec_c7_amended {α : Type _} (L : List (List α)) :
    (∀ (k : Nat) (x : α × Nat × Nat),
      (addExampleIndexAndUniqueId L).get? k = some x → x.2.2 = 1000000000 + k) ∧
    List.Pairwise (fun a b : α × Nat × Nat => a.2.1 ≤ b.2.1) (addExampleIndexAndUniqueId L) ∧
    (∀ (j : Nat) (hj : j < L.length) (k : Nat) (hk : k < (L.get ⟨j, hj⟩).length),
      ((L.get ⟨j, hj⟩).get ⟨k, hk⟩, countNonEmpty (L.take j),
        1000000000 + sumLens (L.take j) + k) ∈ addExampleIndexAndUniqueId L) := by
  refine ⟨?_, ?_, ?_⟩
  · intro k x h
    exact assignIds_get?_uid L 1000000000 0 k x h
  · exact assignIds_pairwise L 1000000000 0
  · intro j hj k hk
    simpa using assignIds_block_mem L 1000000000 0 j hj k hk

theorem spec_c7_witness :
    (addExampleIndexAndUniqueId [[10], [], [20]]).get? 1 = some (20, 1, 1000000001) ∧
    ((20, 1, 1000000001) : Nat × Nat × Nat).2.2 = 1000000000 + 1 ∧
    ((([[10], [], [20]] : List (List Nat)).get ⟨2, by decide⟩).get ⟨0, by decide⟩,
      countNonEmpty (([[10], [], [20]] : List (List Nat)).take 2),
      1000000000 + sumLens (([[10], [], [20]] : List (List Nat)).take 2) + 0) ∈
      addExampleIndexAndUniqueId [[10], [], [20]] :=
  ⟨by decide,
   (spec_c7_amended [[10], [], [20]]).1 1 (20, 1, 1000000001) (by decide),
   (spec_c7_amended [[10], [], [20]]).2.2 2 (by decide) 0 (by decide)⟩

theorem create_examples_foldl (isTraining : Bool) (l : List (String × String × RawQA)) :
    ∀ (a : List AlibabaExample) (b : List Nat),
      l.foldl (createExamplesStep isTraining) (a, b) =
      (a ++ (l.filter
          (fun t => !rejectExample isTraining (exampleOfQA t.1 t.2.1 isTraining t.2.2))).map
          (fun t => exampleOfQA t.1 t.2.1 isTraining t.2.2),
       b ++ (l.filter
          (fun t => rejectExample isTraining (exampleOfQA t.1 t.2.1 isTraining t.2.2))).map
          (fun t => (exampleOfQA t.1 t.2.1 isTraining t.2.2).qas_id)) := by
  induction l with
  | nil => intro a b; simp
  | cons t rest ih =>
    intro a b
    rw [List.foldl_cons]
    by_cases hr : rejectExample isTraining (exampleOfQA t.1 t.2.1 isTraining t.2.2) = true
    · rw [show createExamplesStep isTraining (a, b) t =
          (a, b ++ [(exampleOfQA t.1 t.2.1 isTraining t.2.2).qas_id]) from by
        simp [createExamplesStep, hr]]
      rw [ih a (b ++ [(exampleOfQA t.1 t.2.1 isTraining t.2.2).qas_id])]
      simp [List.filter_cons, hr]
    · rw [show createExamplesStep isTraining (a, b) t =
          (a ++ [exampleOfQA t.1 t.2.1 isTraining t.2.2], b) from by
        simp [createExamplesStep, hr]]
      rw [ih (a ++ [exampleOfQA t.1 t.2.1 isTraining t.2.2]) b]
      simp [List.filter_cons, hr]

/-- C8: `_create_examples` keeps exactly the qas that pass the validity
test and records exactly the rejected ones: the returned example list is
the input-order map over the accepted `(title, context, qa)` triples, and
the invalid-id list is the input-order map of `qas_id` over the rejected
triples, where a qa is rejected precisely when its question text is empty
or (training mode, possible example) the substring
`context[start_position:end_position + 1]` differs from the answer text.
A rejected qa therefore contributes no example (hence no feature), and all
other qas are still processed.  The hypothesis `hans` excludes raw inputs
on which the Python code raises an `IndexError` (`qa["answers"][0]` on an
empty answer list in training mode) before any validity check runs. -/
theorem spec_c8_example_rejection (input_data : List RawEntry) (isTraining : Bool)
    (hans : isTraining = true → ∀ t ∈ qaTriples input_data,
      t.2.2.is_impossible = false → t.2.2.answers ≠ []) :
    create_examples input_data isTraining =
      (((qaTriples input_data).filter
          (fun t => !rejectExample isTraining (exampleOfQA t.1 t.2.1 isTraining t.2.2))).map
          (fun t => exampleOfQA t.1 t.2.1 isTraining t.2.2),
       ((qaTriples input_data).filter
          (fun t => rejectExample isTraining (exampleOfQA t.1 t.2.1 isTraining t.2.2))).map
          (fun t => (exampleOfQA t.1 t.2.1 isTraining t.2.2).qas_id)) ∧
    (∀ e : AlibabaExample, rejectExample isTraining e = true ↔
      (e.question_text = "" ∨ (isTraining = true ∧ e.is_impossible = false ∧
        (e.context_text.drop e.start_position).take (e.end_position + 1 - e.start_position) ≠
          e.answer_text.getD ""))) := by
  refine ⟨?_, ?_⟩
  · unfold create_examples
    simpa using create_examples_foldl isTraining (qaTriples input_data) [] []
  · intro e
    unfold rejectExample
    by_cases h1 : e.question_text = ""
    · simp [h1]
    · rw [if_neg h1]
      by_cases h2 : isTraining = true ∧ e.is_impossible = false ∧
          (e.context_text.drop e.start_position).take (e.end_position + 1 - e.start_position) ≠
            e.answer_text.getD ""
      · simp [h1, h2]
      · simp [h1, h2]

theorem spec_c8_witness :
    ((true : Bool) = true → ∀ t ∈ qaTriples sampleRawData,
      t.2.2.is_impossible = false → t.2.2.answers ≠ []) ∧
    create_examples sampleRawData true =
      (((qaTriples sampleRawData).filter
          (fun t => !rejectExample true (exampleOfQA t.1 t.2.1 true t.2.2))).map
          (fun t => exampleOfQA t.1 t.2.1 true t.2.2),
       ((qaTriples sampleRawData).filter
          (fun t => rejectExample true (exampleOfQA t.1 t.2.1 true t.2.2))).map
          (fun t => (exampleOfQA t.1 t.2.1 true t.2.2).qas_id)) ∧
    (create_examples sampleRawData true).2 = [1, 3] ∧
    ((create_examples sampleRawData true).1.map (fun e => e.qas_id)) = [2] :=
  ⟨by decide, (spec_c8_example_rejection sampleRawData true (by decide)).1, by decide, by decide⟩

theorem updIdx_get? (f : Nat → Nat → Nat) (l : List Nat) :
    ∀ (i k : Nat), (updIdx f l i).get? k = (l.get? k).map (fun v => f (i + k) v) := by
  induction l with
  | nil => intro i k; simp [updIdx]
  | cons v rest ih =>
    intro i k
    cases k with
    | zero => simp [updIdx]
    | succ k =>
      have harith : i + 1 + k = i + (k + 1) := by omega
      simpa [updIdx, harith] using ih (i + 1) k

theorem replicate_get?_one (n k : Nat) :
    (List.replicate n 1).get? k = if k < n then some 1 else none := by
  simp [List.get?_eq_getElem?, List.getElem?_replicate]

/-- C6 counterexample: the source zeroes the *entire* suffix
`p_mask[len(truncated_query) + sequence_added_tokens:]`, not only the
window's context positions.  With sequence length 4, prefix 1,
`paragraph_len` 1 and a position (index 2 and 3) beyond the context that
is neither a pad nor a special token, the code leaves it 0 while the
claimed procedure leaves it 1. -/
theorem spec_c6_counterexample :
    pMaskFromCode [0, 0, 0, 0] [9, 5, 6, 7] 0 [1, 0, 0, 0] 0 1 0 = [0, 0, 0, 0] ∧
    pMaskDescribed [0, 0, 0, 0] [9, 5, 6, 7] 0 [1, 0, 0, 0] 0 1 0 1 = [0, 0, 1, 1] ∧
    pMaskFromCode [0, 0, 0, 0] [9, 5, 6, 7] 0 [1, 0, 0, 0] 0 1 0 ≠
      pMaskDescribed [0, 0, 0, 0] [9, 5, 6, 7] 0 [1, 0, 0, 0] 0 1 0 1 := by decide

/-- C6 amended: the emitted `p_mask` is built by: all positions 1; the
whole suffix from `len(truncated_query) + sequence_added_tokens` set to 0;
pad-token and special-token positions set back to 1; finally the CLS
position forced to 0 unconditionally (so CLS is 0 in every feature,
special token or not).  Whenever every position at or beyond
`prefix + paragraph_len` is a pad or special token — which holds for the
tokenizer encodings this code consumes, where only separator and pad
tokens follow the window's context — this agrees with the claimed
context-positions-only procedure. -/
theorem spec_c6_amended (tokenTypeIds inputIds : List Nat) (padTokenId : Nat)
    (specialMask : List Nat) (clsIndex queryLen seqAdded paragraphLen : Nat)
    (hsuffix : ∀ i, queryLen + seqAdded + paragraphLen ≤ i → i < tokenTypeIds.length →
      (inputIds.getD i (padTokenId + 1) = padTokenId ∨ specialMask.getD i 0 ≠ 0)) :
    pMaskFromCode tokenTypeIds inputIds padTokenId specialMask clsIndex queryLen seqAdded =
      pMaskDescribed tokenTypeIds inputIds padTokenId specialMask clsIndex queryLen seqAdded
        paragraphLen ∧
    (clsIndex < tokenTypeIds.length →
      (pMaskFromCode tokenTypeIds inputIds padTokenId specialMask clsIndex queryLen
        seqAdded).get? clsIndex = some 0) := by
  constructor
  · apply List.ext_get?
    intro k
    simp only [pMaskFromCode, pMaskDescribed]
    rw [updIdx_get?, updIdx_get?, updIdx_get?, updIdx_get?, updIdx_get?, updIdx_get?,
      updIdx_get?, updIdx_get?, replicate_get?_one]
    by_cases hk : k < tokenTypeIds.length
    · simp only [if_pos hk, Option.map_some', Option.some.injEq, Nat.zero_add]
      by_cases h1 : k = clsIndex
      · simp [h1]
      · rw [if_neg h1, if_neg h1]
        by_cases h2 : specialMask.getD k 0 ≠ 0
        · rw [if_pos h2, if_pos h2]
        · rw [if_neg h2, if_neg h2]
          by_cases h3 : inputIds.getD k (padTokenId + 1) = padTokenId
          · rw [if_pos h3, if_pos h3]
          · rw [if_neg h3, if_neg h3]
            by_cases h4 : queryLen + seqAdded ≤ k
            · by_cases h5 : k < queryLen + seqAdded + paragraphLen
              · rw [if_pos h4, if_pos ⟨h4, h5⟩]
              · rcases hsuffix k (by omega) hk with hc | hc
                · exact absurd hc h3
                · exact absurd hc h2
            · rw [if_neg h4, if_neg (by intro hc; exact h4 hc.1)]
    · simp [if_neg hk]
  · intro hcls
    simp only [pMaskFromCode]
    rw [updIdx_get?, updIdx_get?, updIdx_get?, updIdx_get?, replicate_get?_one]
    simp [hcls]

theorem spec_c6_witness :
    (∀ i, 1 + 0 + 2 ≤ i → i < ([0, 0, 0, 0] : List Nat).length →
      (([9, 5, 6, 0] : List Nat).getD i (0 + 1) = 0 ∨ ([1, 0, 0, 1] : List Nat).getD i 0 ≠ 0)) ∧
    pMaskFromCode [0, 0, 0, 0] [9, 5, 6, 0] 0 [1, 0, 0, 1] 0 1 0 =
      pMaskDescribed [0, 0, 0, 0] [9, 5, 6, 0] 0 [1, 0, 0, 1] 0 1 0 2 ∧
    ((0 : Nat) < ([0, 0, 0, 0] : List Nat).length →
      (pMaskFromCode [0, 0, 0, 0] [9, 5, 6, 0] 0 [1, 0, 0, 1] 0 1 0).get? 0 = some 0) :=
  ⟨by
    intro i h1 h2
    simp only [List.length_cons, List.length_nil] at h2
    interval_cases i
    · left; rfl,
   (spec_c6_amended [0, 0, 0, 0] [9, 5, 6, 0] 0 [1, 0, 0, 1] 0 1 0 2 (by
      intro i h1 h2
      simp only [List.length_cons, List.length_nil] at h2
      interval_cases i
      · left; rfl)).1,
   (spec_c6_amended [0, 0, 0, 0] [9, 5, 6, 0] 0 [1, 0, 0, 1] 0 1 0 2 (by
      intro i h1 h2
      simp only [List.length_cons, List.length_nil] at h2
      interval_cases i
      · left; rfl)).2⟩

theorem sliceSpansAux_mem_bounds (docLen budget stride : Int) (hstride : 1 ≤ stride) :
    ∀ (fuel k : Nat) (w : Int × Int), w ∈ sliceSpansAux docLen budget stride fuel k →
      0 ≤ w.1 ∧ w.1 + w.2 ≤ docLen := by
  intro fuel
  induction fuel with
  | zero => intro k w h; simp [sliceSpansAux] at h
  | succ fuel ih =>
    intro k w h
    rw [sliceSpansAux] at h
    by_cases hc : (k : Int) * stride < docLen
    · rw [if_pos hc] at h
      rcases List.mem_cons.mp h with h | h
      · subst h
        refine ⟨mul_nonneg (Int.natCast_nonneg k) (by omega), ?_⟩
        simp only
        omega
      · by_cases hbr : docLen - (k : Int) * stride ≤ budget
        · rw [if_pos hbr] at h
          simp at h
        · rw [if_neg hbr] at h
          exact ih (k + 1) w h
    · rw [if_neg hc] at h
      simp at h

theorem sliceSpansAux_coverage (docLen budget stride : Int) (hstride : 1 ≤ stride)
    (hbudget : stride ≤ budget) :
    ∀ (fuel k : Nat), docLen ≤ (k : Int) * stride + fuel →
      ∀ (p : Int), (k : Int) * stride ≤ p → p < docLen →
        ∃ w ∈ sliceSpansAux docLen budget stride fuel k, w.1 ≤ p ∧ p < w.1 + w.2 := by
  intro fuel
  induction fuel with
  | zero =>
    intro k hf p hp1 hp2
    exfalso
    simp only [Nat.cast_zero, add_zero] at hf
    omega
  | succ fuel ih =>
    intro k hf p hp1 hp2
    have hstep : ((k + 1 : Nat) : Int) * stride = (k : Int) * stride + stride := by
      push_cast
      ring
    have hc : (k : Int) * stride < docLen := by omega
    rw [sliceSpansAux, if_pos hc]
    by_cases hin : p < (k : Int) * stride + min (docLen - (k : Int) * stride) budget
    · exact ⟨((k : Int) * stride, min (docLen - (k : Int) * stride) budget),
        List.mem_cons_self _ _, hp1, hin⟩
    · push_neg at hin
      have hbr : ¬ docLen - (k : Int) * stride ≤ budget := by omega
      rw [if_neg hbr]
      have hge : ((k + 1 : Nat) : Int) * stride ≤ p := by
        rw [hstep]
        omega
      have hf' : docLen ≤ ((k + 1 : Nat) : Int) * stride + fuel := by
        rw [hstep]
        omega
      obtain ⟨w, hw, hcov⟩ := ih (k + 1) hf' p hge hp2
      exact ⟨w, List.mem_cons_of_mem _ hw, hcov⟩

theorem sliceSpansAux_getLast (docLen budget stride : Int) (hstride : 1 ≤ stride)
    (hbudget : stride ≤ budget) :
    ∀ (fuel k : Nat), docLen ≤ (k : Int) * stride + fuel →
      ∀ w : Int × Int, (sliceSpansAux docLen budget stride fuel k).getLast? = some w →
        w.1 + w.2 = docLen := by
  intro fuel
  induction fuel with
  | zero => intro k hf w hw; simp [sliceSpansAux] at hw
  | succ fuel ih =>
    intro k hf w hw
    rw [sliceSpansAux] at hw
    have hstep : ((k + 1 : Nat) : Int) * stride = (k : Int) * stride + stride := by
      push_cast
      ring
    by_cases hc : (k : Int) * stride < docLen
    · rw [if_pos hc] at hw
      by_cases hbr : docLen - (k : Int) * stride ≤ budget
      · rw [if_pos hbr] at hw
        have hw' : ((k : Int) * stride, min (docLen - (k : Int) * stride) budget) = w := by
          simpa using hw
        rw [← hw']
        simp only
        omega
      · rw [if_neg hbr] at hw
        cases hrest : sliceSpansAux docLen budget stride fuel (k + 1) with
        | nil =>
          exfalso
          have hempty : fuel = 0 ∨ ¬((k + 1 : Nat) : Int) * stride < docLen := by
            by_contra hcon
            push_neg at hcon
            obtain ⟨hf0, hlt⟩ := hcon
            cases fuel with
            | zero => exact hf0 rfl
            | succ f2 =>
              rw [sliceSpansAux, if_pos hlt] at hrest
              simp at hrest
          rcases hempty with h0 | hnl
          · subst h0
            omega
          · rw [hstep] at hnl
            omega
        | cons r rs =>
          rw [hrest, List.getLast?_cons_cons] at hw
          have hf' : docLen ≤ ((k + 1 : Nat) : Int) * stride + fuel := by
            rw [hstep]
            omega
          exact ih (k + 1) hf' w (by rw [hrest]; exact hw)
    · rw [if_neg hc] at hw
      simp at hw

theorem sliceSpans_ne_nil (docLen maxSeqLen queryLen pairAdded stride : Int)
    (hpos : 0 < docLen) : sliceSpans docLen maxSeqLen queryLen pairAdded stride ≠ [] := by
  unfold sliceSpans
  have h1 : docLen.toNat = (docLen.toNat - 1) + 1 := by omega
  rw [h1, sliceSpansAux, if_pos (by simpa using hpos)]
  simp

/-- C5 counterexample: with `doc_tokens` of length 1, `max_seq_length = 2`,
`len(truncated_query) = 2`, `sequence_pair_added_tokens = 0` and
`doc_stride = 1` (positive and `< max_seq_length`, as the claim requires),
the context budget is 0: the only window is `(0, 0)`, position 0 is
covered by no window, and the final window has `start + length = 0 ≠ 1`. -/
theorem spec_c5_counterexample :
    (0 : Int) < 1 ∧ (1 : Int) < 2 ∧
    sliceSpans 1 2 2 0 1 = [(0, 0)] ∧
    ¬(∀ p : Int, 0 ≤ p → p < 1 → ∃ w ∈ sliceSpans 1 2 2 0 1, w.1 ≤ p ∧ p < w.1 + w.2) ∧
    (∀ w : Int × Int, (sliceSpans 1 2 2 0 1).getLast? = some w → w.1 + w.2 ≠ 1) := by
  refine ⟨by norm_num, by norm_num, by decide, ?_, ?_⟩
  · intro hcl
    obtain ⟨w, hw, h1, h2⟩ := hcl 0 le_rfl (by norm_num)
    have he : sliceSpans 1 2 2 0 1 = [(0, 0)] := by decide
    rw [he] at hw
    have hw' : w = ((0 : Int), (0 : Int)) := by simpa using hw
    rw [hw'] at h2
    simp at h2
  · intro w hw
    have he : sliceSpans 1 2 2 0 1 = [(0, 0)] := by decide
    rw [he] at hw
    have hw' : ((0 : Int), (0 : Int)) = w := by simpa using hw
    rw [← hw']
    norm_num

/-- C5 amended: for every `doc_tokens`, positive `doc_stride`, and
`doc_stride ≤ max_seq_length - len(truncated_query) - sequence_pair_added_tokens`
(the per-window context budget — the claim's bare
`doc_stride < max_seq_length` is not sufficient), the windows of the
slicing loop — which stops at the first window with no overflow tokens,
i.e. the first whose remaining context fits the budget — cover
`[0, len(doc_tokens))` with no gaps, stay inside it, and the final window
satisfies `start + length = len(doc_tokens)`. -/
theorem spec_c5_amended (docLen maxSeqLen queryLen pairAdded stride : Int)
    (hstride : 0 < stride)
    (hbudget : stride ≤ maxSeqLen - queryLen - pairAdded) :
    (∀ p : Int, 0 ≤ p → p < docLen →
      ∃ w ∈ sliceSpans docLen maxSeqLen queryLen pairAdded stride, w.1 ≤ p ∧ p < w.1 + w.2) ∧
    (∀ w ∈ sliceSpans docLen maxSeqLen queryLen pairAdded stride,
      0 ≤ w.1 ∧ w.1 + w.2 ≤ docLen) ∧
    (∀ w : Int × Int,
      (sliceSpans docLen maxSeqLen queryLen pairAdded stride).getLast? = some w →
        w.1 + w.2 = docLen) ∧
    (0 < docLen → sliceSpans docLen maxSeqLen queryLen pairAdded stride ≠ []) := by
  have hf : docLen ≤ ((0 : Nat) : Int) * stride + (docLen.toNat : Nat) := by
    push_cast
    omega
  refine ⟨?_, ?_, ?_, ?_⟩
  · intro p hp0 hpD
    unfold sliceSpans
    exact sliceSpansAux_coverage docLen _ stride (by omega) hbudget docLen.toNat 0 hf p
      (by simpa using hp0) hpD
  · intro w hw
    exact sliceSpansAux_mem_bounds docLen _ stride (by omega) docLen.toNat 0 w hw
  · intro w hw
    unfold sliceSpans at hw
    exact sliceSpansAux_getLast docLen _ stride (by omega) hbudget docLen.toNat 0 hf w hw
  · intro hpos
    exact sliceSpans_ne_nil docLen maxSeqLen queryLen pairAdded stride hpos

theorem spec_c5_witness :
    (0 : Int) < 2 ∧ (2 : Int) ≤ 10 - 2 - 3 ∧
    (∃ w ∈ sliceSpans 5 10 2 3 2, w.1 ≤ 4 ∧ (4 : Int) < w.1 + w.2) ∧
    (∀ w : Int × Int, (sliceSpans 5 10 2 3 2).getLast? = some w → w.1 + w.2 = 5) ∧
    sliceSpans 5 10 2 3 2 ≠ [] :=
  ⟨by norm_num, by norm_num,
   (spec_c5_amended 5 10 2 3 2 (by norm_num) (by norm_num)).1 4 (by norm_num) (by norm_num),
   (spec_c5_amended 5 10 2 3 2 (by norm_num) (by norm_num)).2.2.1,
   (spec_c5_amended 5 10 2 3 2 (by norm_num) (by norm_num)).2.2.2 (by norm_num)⟩

theorem bestSpanScan_none (p : Int) (l : List DocSpan) :
    ∀ (idx : Nat), (∀ s ∈ l, ¬ coversPos s p) → bestSpanScan p l idx none = none := by
  induction l with
  | nil => intro idx _; rfl
  | cons s rest ih =>
    intro idx h
    have hs : ¬ coversPos s p := h s (List.mem_cons_self s rest)
    have hrest : ∀ t ∈ rest, ¬ coversPos t p := fun t ht => h t (List.mem_cons_of_mem s ht)
    rw [bestSpanScan]
    by_cases h1 : p < s.start
    · rw [if_pos h1]
      exact ih (idx + 1) hrest
    · have h2 : p > s.start + s.length - 1 := by
        unfold coversPos at hs
        omega
      rw [if_neg h1, if_pos h2]
      exact ih (idx + 1) hrest

theorem bestSpanScan_some_ne_none (p : Int) (l : List DocSpan) :
    ∀ (idx : Nat) (x : Int × Nat), bestSpanScan p l idx (some x) ≠ none := by
  induction l with
  | nil => intro idx x; simp [bestSpanScan]
  | cons s rest ih =>
    intro idx x
    obtain ⟨bs, bi⟩ := x
    rw [bestSpanScan]
    by_cases h1 : p < s.start
    · rw [if_pos h1]
      exact ih (idx + 1) (bs, bi)
    · rw [if_neg h1]
      by_cases h2 : p > s.start + s.length - 1
      · rw [if_pos h2]
        exact ih (idx + 1) (bs, bi)
      · rw [if_neg h2]
        simp only
        by_cases h3 : 100 * min (p - s.start) (s.start + s.length - 1 - p) + s.length > bs
        · rw [if_pos h3]
          exact ih (idx + 1) _
        · rw [if_neg h3]
          exact ih (idx + 1) _

theorem bestSpanScan_covered_ne_none (p : Int) (l : List DocSpan) :
    ∀ (idx : Nat) (b : Option (Int × Nat)), (∃ s ∈ l, coversPos s p) →
      bestSpanScan p l idx b ≠ none := by
  induction l with
  | nil => intro idx b h; simp at h
  | cons s rest ih =>
    intro idx b h
    rw [bestSpanScan]
    by_cases h1 : p < s.start
    · rw [if_pos h1]
      rcases h with ⟨t, ht, hcov⟩
      rcases List.mem_cons.mp ht with rfl | ht'
      · exact absurd hcov.1 (by omega)
      · cases b with
        | none => exact ih (idx + 1) none ⟨t, ht', hcov⟩
        | some x => exact bestSpanScan_some_ne_none p rest (idx + 1) x
    · rw [if_neg h1]
      by_cases h2 : p > s.start + s.length - 1
      · rw [if_pos h2]
        rcases h with ⟨t, ht, hcov⟩
        rcases List.mem_cons.mp ht with rfl | ht'
        · exact absurd hcov.2 (by omega)
        · cases b with
          | none => exact ih (idx + 1) none ⟨t, ht', hcov⟩
          | some x => exact bestSpanScan_some_ne_none p rest (idx + 1) x
      · rw [if_neg h2]
        cases b with
        | none => exact bestSpanScan_some_ne_none p rest (idx + 1) _
        | some x =>
          obtain ⟨bs, bi⟩ := x
          simp only
          by_cases h3 : 100 * min (p - s.start) (s.start + s.length - 1 - p) + s.length > bs
          · rw [if_pos h3]
            exact bestSpanScan_some_ne_none p rest (idx + 1) _
          · rw [if_neg h3]
            exact bestSpanScan_some_ne_none p rest (idx + 1) _

theorem bestSpanScan_spec (p : Int) (l : List DocSpan) :
    ∀ (idx : Nat) (b : Option (Int × Nat)),
      (∀ sc' i', b = some (sc', i') → i' < idx) →
      ∀ (sc : Int) (i : Nat), bestSpanScan p l idx b = some (sc, i) →
        (b = some (sc, i) ∧
          ∀ m (hm : m < l.length), coversPos (l.get ⟨m, hm⟩) p →
            spanScore (l.get ⟨m, hm⟩) p ≤ sc) ∨
        (∃ k, ∃ hk : k < l.length, i = idx + k ∧ coversPos (l.get ⟨k, hk⟩) p ∧
          sc = spanScore (l.get ⟨k, hk⟩) p ∧
          (∀ sc' i', b = some (sc', i') → sc' < sc) ∧
          (∀ m (hm : m < l.length), m < k → coversPos (l.get ⟨m, hm⟩) p →
            spanScore (l.get ⟨m, hm⟩) p < sc) ∧
          (∀ m (hm : m < l.length), coversPos (l.get ⟨m, hm⟩) p →
            spanScore (l.get ⟨m, hm⟩) p ≤ sc)) := by
  induction l with
  | nil =>
    intro idx b hb sc i hres
    left
    rw [bestSpanScan] at hres
    exact ⟨hres, by intro m hm; exact absurd hm (by simp)⟩
  | cons s rest ih =>
    intro idx b hb sc i hres
    rw [bestSpanScan] at hres
    by_cases h1 : p < s.start
    · rw [if_pos h1] at hres
      have hncov : ¬ coversPos s p := fun hc => absurd hc.1 (by omega)
      have hb' : ∀ sc' i', b = some (sc', i') → i' < idx + 1 :=
        fun sc' i' h => Nat.lt_succ_of_lt (hb sc' i' h)
      rcases ih (idx + 1) b hb' sc i hres with ⟨hbe, hall⟩ | ⟨k, hk, hik, hcov, hsc, hblt, hlt, hle⟩
      · left
        refine ⟨hbe, ?_⟩
        intro m hm hcovm
        cases m with
        | zero => exact absurd hcovm hncov
        | succ m => exact hall m (by simpa using hm) hcovm
      · right
        refine ⟨k + 1, by simpa using Nat.succ_lt_succ hk, by omega, hcov, hsc, hblt, ?_, ?_⟩
        · intro m hm hmk hcovm
          cases m with
          | zero => exact absurd hcovm hncov
          | succ m => exact hlt m (by simpa using hm) (by omega) hcovm
        · intro m hm hcovm
          cases m with
          | zero => exact absurd hcovm hncov
          | succ m => exact hle m (by simpa using hm) hcovm
    · rw [if_neg h1] at hres
      by_cases h2 : p > s.start + s.length - 1
      · rw [if_pos h2] at hres
        have hncov : ¬ coversPos s p := fun hc => absurd hc.2 (by omega)
        have hb' : ∀ sc' i', b = some (sc', i') → i' < idx + 1 :=
          fun sc' i' h => Nat.lt_succ_of_lt (hb sc' i' h)
        rcases ih (idx + 1) b hb' sc i hres with ⟨hbe, hall⟩ | ⟨k, hk, hik, hcov, hsc, hblt, hlt, hle⟩
        · left
          refine ⟨hbe, ?_⟩
          intro m hm hcovm
          cases m with
          | zero => exact absurd hcovm hncov
          | succ m => exact hall m (by simpa using hm) hcovm
        · right
          refine ⟨k + 1, by simpa using Nat.succ_lt_succ hk, by omega, hcov, hsc, hblt, ?_, ?_⟩
          · intro m hm hmk hcovm
            cases m with
            | zero => exact absurd hcovm hncov
            | succ m => exact hlt m (by simpa using hm) (by omega) hcovm
          · intro m hm hcovm
            cases m with
            | zero => exact absurd hcovm hncov
            | succ m => exact hle m (by simpa using hm) hcovm
      · have hcovs : coversPos s p := ⟨by omega, by omega⟩
        have hsseq : spanScore s p =
            100 * min (p - s.start) (s.start + s.length - 1 - p) + s.length := rfl
        have hget0 : ∀ (hh : 0 < (s :: rest).length), (s :: rest).get ⟨0, hh⟩ = s :=
          fun _ => rfl
        rw [if_neg h2] at hres
        cases b with
        | none =>
          simp only at hres
          have hb' : ∀ sc' i',
              (some (100 * min (p - s.start) (s.start + s.length - 1 - p) + s.length, idx) :
                Option (Int × Nat)) = some (sc', i') → i' < idx + 1 := by
            intro sc' i' h
            obtain ⟨-, h2'⟩ := Prod.mk.injEq .. ▸ Option.some.inj h
            omega
          rcases ih (idx + 1) _ hb' sc i hres with ⟨hbe, hall⟩ | ⟨k, hk, hik, hcov, hsc, hblt, hlt, hle⟩
          · obtain ⟨hsc0, hi0⟩ := Prod.mk.injEq .. ▸ Option.some.inj hbe
            right
            refine ⟨0, by simp, by omega, hcovs, (by rw [hget0, hsseq]; omega), ?_, ?_, ?_⟩
            · intro sc' i' h
              simp at h
            · intro m hm hmk hcovm
              exact absurd hmk (by omega)
            · intro m hm hcovm
              cases m with
              | zero => rw [hget0, hsseq]; omega
              | succ m => exact hall m (by simpa using hm) hcovm
          · have hs0lt : 100 * min (p - s.start) (s.start + s.length - 1 - p) + s.length < sc :=
              hblt _ idx rfl
            right
            refine ⟨k + 1, by simpa using Nat.succ_lt_succ hk, by omega, hcov, hsc, ?_, ?_, ?_⟩
            · intro sc' i' h
              simp at h
            · intro m hm hmk hcovm
              cases m with
              | zero => rw [hget0, hsseq]; exact hs0lt
              | succ m => exact hlt m (by simpa using hm) (by omega) hcovm
            · intro m hm hcovm
              cases m with
              | zero => rw [hget0, hsseq]; omega
              | succ m => exact hle m (by simpa using hm) hcovm
        | some pr =>
          obtain ⟨bs, bi⟩ := pr
          simp only at hres
          have hbi : bi < idx := hb bs bi rfl
          by_cases h3 : 100 * min (p - s.start) (s.start + s.length - 1 - p) + s.length > bs
          · rw [if_pos h3] at hres
            have hb' : ∀ sc' i',
                (some (100 * min (p - s.start) (s.start + s.length - 1 - p) + s.length, idx) :
                  Option (Int × Nat)) = some (sc', i') → i' < idx + 1 := by
              intro sc' i' h
              obtain ⟨-, h2'⟩ := Prod.mk.injEq .. ▸ Option.some.inj h
              omega
            rcases ih (idx + 1) _ hb' sc i hres with ⟨hbe, hall⟩ | ⟨k, hk, hik, hcov, hsc, hblt, hlt, hle⟩
            · obtain ⟨hsc0, hi0⟩ := Prod.mk.injEq .. ▸ Option.some.inj hbe
              right
              refine ⟨0, by simp, by omega, hcovs, (by rw [hget0, hsseq]; omega), ?_, ?_, ?_⟩
              · intro sc' i' h
                obtain ⟨hbs', -⟩ := Prod.mk.injEq .. ▸ Option.some.inj h
                omega
              · intro m hm hmk hcovm
                exact absurd hmk (by omega)
              · intro m hm hcovm
                cases m with
                | zero => rw [hget0, hsseq]; omega
                | succ m => exact hall m (by simpa using hm) hcovm
            · have hs0lt : 100 * min (p - s.start) (s.start + s.length - 1 - p) + s.length < sc :=
                hblt _ idx rfl
              right
              refine ⟨k + 1, by simpa using Nat.succ_lt_succ hk, by omega, hcov, hsc, ?_, ?_, ?_⟩
              · intro sc' i' h
                obtain ⟨hbs', -⟩ := Prod.mk.injEq .. ▸ Option.some.inj h
                omega
              · intro m hm hmk hcovm
                cases m with
                | zero => rw [hget0, hsseq]; exact hs0lt
                | succ m => exact hlt m (by simpa using hm) (by omega) hcovm
              · intro m hm hcovm
                cases m with
                | zero => rw [hget0, hsseq]; omega
                | succ m => exact hle m (by simpa using hm) hcovm
          · rw [if_neg h3] at hres
            push_neg at h3
            have hb' : ∀ sc' i', (some (bs, bi) : Option (Int × Nat)) = some (sc', i') →
                i' < idx + 1 := by
              intro sc' i' h
              obtain ⟨-, h2'⟩ := Prod.mk.injEq .. ▸ Option.some.inj h
              omega
            rcases ih (idx + 1) _ hb' sc i hres with ⟨hbe, hall⟩ | ⟨k, hk, hik, hcov, hsc, hblt, hlt, hle⟩
            · obtain ⟨hsc0, hi0⟩ := Prod.mk.injEq .. ▸ Option.some.inj hbe
              left
              refine ⟨by rw [← hsc0, ← hi0], ?_⟩
              intro m hm hcovm
              cases m with
              | zero => rw [hget0, hsseq]; omega
              | succ m => exact hall m (by simpa using hm) hcovm
            · have hbslt : bs < sc := hblt bs bi rfl
              right
              refine ⟨k + 1, by simpa using Nat.succ_lt_succ hk, by omega, hcov, hsc, ?_, ?_, ?_⟩
              · intro sc' i' h
                obtain ⟨hbs', -⟩ := Prod.mk.injEq .. ▸ Option.some.inj h
                omega
              · intro m hm hmk hcovm
                cases m with
                | zero => rw [hget0, hsseq]; omega
                | succ m => exact hlt m (by simpa using hm) (by omega) hcovm
              · intro m hm hcovm
                cases m with
                | zero => rw [hget0, hsseq]; omega
                | succ m => exact hle m (by simpa using hm) hcovm

/-- C4: for every window list and position, if at least one window covers
the position (`window.start <= position <= window.start + window.length - 1`)
then exactly one window index is reported as max-context owner by
`_new_check_is_max_context`, namely the first-scored window attaining the
strictly highest score `min(position - start, end - position) + 0.01 * length`
(modelled exactly as the integer `100 * min(...) + length`); a position
covered by no window has no owner. -/
theorem spec_c4_max_context_partition (windows : List DocSpan) (p : Int) :
    ((∃ s ∈ windows, coversPos s p) →
      ∃ w : Nat,
        new_check_is_max_context (windows.map toSpanDict) w p = true ∧
        (∀ w' : Nat, new_check_is_max_context (windows.map toSpanDict) w' p = true → w' = w) ∧
        ∃ hw : w < windows.length,
          coversPos (windows.get ⟨w, hw⟩) p ∧
          (∀ m (hm : m < windows.length), coversPos (windows.get ⟨m, hm⟩) p →
            spanScore (windows.get ⟨m, hm⟩) p ≤ spanScore (windows.get ⟨w, hw⟩) p) ∧
          (∀ m (hm : m < windows.length), m < w → coversPos (windows.get ⟨m, hm⟩) p →
            spanScore (windows.get ⟨m, hm⟩) p < spanScore (windows.get ⟨w, hw⟩) p)) ∧
    ((∀ s ∈ windows, ¬ coversPos s p) →
      ∀ w : Nat, new_check_is_max_context (windows.map toSpanDict) w p = false) := by
  constructor
  · intro hex
    have hne := bestSpanScan_covered_ne_none p windows 0 none hex
    cases hbest : bestSpanScan p windows 0 none with
    | none => exact absurd hbest hne
    | some pr =>
      obtain ⟨sc, i⟩ := pr
      have hchar := bestSpanScan_spec p windows 0 none (by intro sc' i' h; simp at h) sc i hbest
      rcases hchar with ⟨hbe, -⟩ | ⟨k, hk, hik, hcov, hsc, -, hlt, hle⟩
      · simp at hbe
      · rw [Nat.zero_add] at hik
        subst hik
        refine ⟨i, ?_, ?_, hk, hcov, ?_, ?_⟩
        · unfold new_check_is_max_context
          rw [newBestSpanScan_map, hbest]
          simp
        · intro w' hw'
          unfold new_check_is_max_context at hw'
          rw [newBestSpanScan_map, hbest] at hw'
          simpa using hw'
        · intro m hm hcovm
          have hh := hle m hm hcovm
          rw [hsc] at hh
          exact hh
        · intro m hm hmk hcovm
          have hh := hlt m hm hmk hcovm
          rw [hsc] at hh
          exact hh
  · intro hnone w
    unfold new_check_is_max_context
    rw [newBestSpanScan_map, bestSpanScan_none p windows 0 hnone]

theorem spec_c4_witness :
    (∃ s ∈ [(⟨0, 3⟩ : DocSpan), ⟨2, 3⟩], coversPos s 2) ∧
    (∃ w : Nat,
      new_check_is_max_context ([(⟨0, 3⟩ : DocSpan), ⟨2, 3⟩].map toSpanDict) w 2 = true ∧
      (∀ w' : Nat,
        new_check_is_max_context ([(⟨0, 3⟩ : DocSpan), ⟨2, 3⟩].map toSpanDict) w' 2 = true →
          w' = w) ∧
      ∃ hw : w < ([(⟨0, 3⟩ : DocSpan), ⟨2, 3⟩] : List DocSpan).length,
        coversPos (([(⟨0, 3⟩ : DocSpan), ⟨2, 3⟩] : List DocSpan).get ⟨w, hw⟩) 2 ∧
        (∀ m (hm : m < ([(⟨0, 3⟩ : DocSpan), ⟨2, 3⟩] : List DocSpan).length),
          coversPos (([(⟨0, 3⟩ : DocSpan), ⟨2, 3⟩] : List DocSpan).get ⟨m, hm⟩) 2 →
            spanScore (([(⟨0, 3⟩ : DocSpan), ⟨2, 3⟩] : List DocSpan).get ⟨m, hm⟩) 2 ≤
              spanScore (([(⟨0, 3⟩ : DocSpan), ⟨2, 3⟩] : List DocSpan).get ⟨w, hw⟩) 2) ∧
        (∀ m (hm : m < ([(⟨0, 3⟩ : DocSpan), ⟨2, 3⟩] : List DocSpan).length), m < w →
          coversPos (([(⟨0, 3⟩ : DocSpan), ⟨2, 3⟩] : List DocSpan).get ⟨m, hm⟩) 2 →
            spanScore (([(⟨0, 3⟩ : DocSpan), ⟨2, 3⟩] : List DocSpan).get ⟨m, hm⟩) 2 <
              spanScore (([(⟨0, 3⟩ : DocSpan), ⟨2, 3⟩] : List DocSpan).get ⟨w, hw⟩) 2)) ∧
    (∀ s ∈ [(⟨0, 3⟩ : DocSpan), ⟨2, 3⟩], ¬ coversPos s 99) ∧
    (∀ w : Nat,
      new_check_is_max_context ([(⟨0, 3⟩ : DocSpan), ⟨2, 3⟩].map toSpanDict) w 99 = false) :=
  ⟨by decide,
   (spec_c4_max_context_partition [⟨0, 3⟩, ⟨2, 3⟩] 2).1 (by decide),
   by decide,
   (spec_c4_max_context_partition [⟨0, 3⟩, ⟨2, 3⟩] 99).2 (by decide)⟩

theorem scanAnswerEnd_some (doc ans : List String) (s : Nat) :
    ∀ (e e' : Nat), s ≤ e → scanAnswerEnd doc ans s e = some e' →
      s ≤ e' ∧ e' ≤ e ∧ sliceJoin doc s e' = String.join ans ∧
        ∀ m, e' < m → m ≤ e → sliceJoin doc s m ≠ String.join ans := by
  intro e
  induction e with
  | zero =>
    intro e' hse h
    rw [scanAnswerEnd] at h
    by_cases hm : sliceJoin doc s 0 = String.join ans
    · rw [if_pos hm] at h
      obtain rfl : (0 : Nat) = e' := Option.some.inj h
      exact ⟨hse, le_refl 0, hm, fun m h1 h2 => absurd h2 (by omega)⟩
    · rw [if_neg hm] at h
      simp at h
  | succ e ih =>
    intro e' hse h
    rw [scanAnswerEnd] at h
    by_cases hm : sliceJoin doc s (e + 1) = String.join ans
    · rw [if_pos hm] at h
      obtain rfl : e + 1 = e' := Option.some.inj h
      exact ⟨hse, le_refl _, hm, fun m h1 h2 => absurd h2 (by omega)⟩
    · rw [if_neg hm] at h
      by_cases hs1 : e + 1 ≤ s
      · rw [if_pos hs1] at h
        simp at h
      · rw [if_neg hs1] at h
        obtain ⟨ha, hb, hc, hd⟩ := ih e' (by omega) h
        refine ⟨ha, by omega, hc, ?_⟩
        intro m h1 h2
        rcases Nat.lt_or_ge m (e + 1) with hlt | hge
        · exact hd m h1 (by omega)
        · have hme : m = e + 1 := by omega
          rw [hme]
          exact hm

theorem scanAnswerEnd_none (doc ans : List String) (s : Nat) :
    ∀ (e : Nat), s ≤ e → scanAnswerEnd doc ans s e = none →
      ∀ m, s ≤ m → m ≤ e → sliceJoin doc s m ≠ String.join ans := by
  intro e
  induction e with
  | zero =>
    intro hse h m h1 h2
    have hm0 : m = 0 := by omega
    subst hm0
    rw [scanAnswerEnd] at h
    by_cases hm : sliceJoin doc s 0 = String.join ans
    · rw [if_pos hm] at h
      simp at h
    · exact hm
  | succ e ih =>
    intro hse h m h1 h2
    rw [scanAnswerEnd] at h
    by_cases hm : sliceJoin doc s (e + 1) = String.join ans
    · rw [if_pos hm] at h
      simp at h
    · rw [if_neg hm] at h
      rcases Nat.lt_or_ge m (e + 1) with hlt | hge
      · by_cases hs1 : e + 1 ≤ s
        · exact absurd h1 (by omega)
        · rw [if_neg hs1] at h
          exact ih (by omega) h m h1 (by omega)
      · have hme : m = e + 1 := by omega
        rw [hme]
        exact hm

theorem scanAnswerStart_none (doc ans : List String) :
    ∀ (rem s : Nat), s + rem = doc.length → scanAnswerStart doc ans rem s = none →
      ∀ s' e', s ≤ s' → ¬ isMatchSpan doc ans s' e' := by
  intro rem
  induction rem with
  | zero =>
    intro s hs _ s' e' hss hmatch
    obtain ⟨h1, h2, -⟩ := hmatch
    omega
  | succ rem ih =>
    intro s hs h s' e' hss hmatch
    rw [scanAnswerStart] at h
    cases hend : scanAnswerEnd doc ans s (doc.length - 1) with
    | some e0 =>
      rw [hend] at h
      simp at h
    | none =>
      rw [hend] at h
      rcases Nat.lt_or_ge s' (s + 1) with hlt | hge
      · have hseq : s' = s := by omega
        subst hseq
        obtain ⟨h1, h2, h3⟩ := hmatch
        exact scanAnswerEnd_none doc ans s' (doc.length - 1) (by omega) hend e'
          (by omega) (by omega) h3
      · exact ih (s + 1) (by omega) h s' e' hge hmatch

theorem scanAnswerStart_some (doc ans : List String) :
    ∀ (rem s : Nat), s + rem = doc.length →
      ∀ s0 e0, scanAnswerStart doc ans rem s = some (s0, e0) →
        s ≤ s0 ∧ isMatchSpan doc ans s0 e0 ∧
        (∀ s', s ≤ s' → s' < s0 → ∀ e', ¬ isMatchSpan doc ans s' e') ∧
        (∀ e', isMatchSpan doc ans s0 e' → e' ≤ e0) := by
  intro rem
  induction rem with
  | zero =>
    intro s hs s0 e0 h
    rw [scanAnswerStart] at h
    simp at h
  | succ rem ih =>
    intro s hs s0 e0 h
    rw [scanAnswerStart] at h
    have hslen : s < doc.length := by omega
    cases hend : scanAnswerEnd doc ans s (doc.length - 1) with
    | some e1 =>
      rw [hend] at h
      have hpair := Option.some.inj h
      have hs0 : s0 = s := (congrArg Prod.fst hpair).symm
      have he0 : e0 = e1 := (congrArg Prod.snd hpair).symm
      subst hs0
      subst he0
      obtain ⟨ha, hb, hc, hd⟩ := scanAnswerEnd_some doc ans s0 (doc.length - 1) e0
        (by omega) hend
      refine ⟨le_refl s0, ⟨ha, by omega, hc⟩, ?_, ?_⟩
      · intro s' h1 h2 e' hm
        exact absurd h2 (by omega)
      · intro e' hm
        by_contra hgt
        push_neg at hgt
        obtain ⟨hm1, hm2, hm3⟩ := hm
        exact hd e' hgt (by omega) hm3
    | none =>
      rw [hend] at h
      obtain ⟨ha, hb, hc, hd⟩ := ih (s + 1) (by omega) s0 e0 h
      refine ⟨by omega, hb, ?_, hd⟩
      intro s' h1 h2 e' hm
      rcases Nat.lt_or_ge s' (s + 1) with hlt | hge
      · have hseq : s' = s := by omega
        subst hseq
        obtain ⟨hm1, hm2, hm3⟩ := hm
        exact scanAnswerEnd_none doc ans s' (doc.length - 1) (by omega) hend e'
          (by omega) (by omega) hm3
      · exact hc s' hge h2 e' hm

/-- C2: if some contiguous slice of `doc_tokens` concatenates (with no
separator) to the concatenation of `answer_tokens`, then
`_improve_answer_span` returns the matching pair `(s, e)` with the
smallest such `s` and, for that `s`, the largest matching `e` (the first
end found scanning downward from `len(doc_tokens) - 1`), and the slice
concatenation equals the answer concatenation; if no slice matches, the
fallback pair `(input_start, input_end)` is returned unchanged. -/
theorem spec_c2_improve_answer_span (doc ans : List String) (inputStart inputEnd : Nat) :
    ((∃ s e, isMatchSpan doc ans s e) →
      ∃ s e, improve_answer_span doc ans inputStart inputEnd = (s, e) ∧
        isMatchSpan doc ans s e ∧
        (∀ s' e', isMatchSpan doc ans s' e' → s ≤ s') ∧
        (∀ e', isMatchSpan doc ans s e' → e' ≤ e)) ∧
    ((∀ s e, ¬ isMatchSpan doc ans s e) →
      improve_answer_span doc ans inputStart inputEnd = (inputStart, inputEnd)) := by
  constructor
  · intro hex
    cases hscan : scanAnswerStart doc ans doc.length 0 with
    | none =>
      exfalso
      obtain ⟨s, e, hm⟩ := hex
      exact scanAnswerStart_none doc ans doc.length 0 (by omega) hscan s e (Nat.zero_le s) hm
    | some pr =>
      obtain ⟨s0, e0⟩ := pr
      obtain ⟨-, hb, hc, hd⟩ := scanAnswerStart_some doc ans doc.length 0 (by omega) s0 e0 hscan
      refine ⟨s0, e0, ?_, hb, ?_, hd⟩
      · unfold improve_answer_span
        rw [hscan]
      · intro s' e' hm
        by_contra hlt
        push_neg at hlt
        exact hc s' (Nat.zero_le s') hlt e' hm
  · intro hnone
    cases hscan : scanAnswerStart doc ans doc.length 0 with
    | none =>
      unfold improve_answer_span
      rw [hscan]
    | some pr =>
      obtain ⟨s0, e0⟩ := pr
      obtain ⟨-, hb, -, -⟩ := scanAnswerStart_some doc ans doc.length 0 (by omega) s0 e0 hscan
      exact absurd hb (hnone s0 e0)

theorem spec_c2_witness :
    (∃ s e, isMatchSpan ["ab", "c", "ab"] ["a", "bc"] s e) ∧
    (∃ s e, improve_answer_span ["ab", "c", "ab"] ["a", "bc"] 5 7 = (s, e) ∧
      isMatchSpan ["ab", "c", "ab"] ["a", "bc"] s e ∧
      (∀ s' e', isMatchSpan ["ab", "c", "ab"] ["a", "bc"] s' e' → s ≤ s') ∧
      (∀ e', isMatchSpan ["ab", "c", "ab"] ["a", "bc"] s e' → e' ≤ e)) ∧
    (∀ s e, ¬ isMatchSpan ["a"] ["b"] s e) ∧
    improve_answer_span ["a"] ["b"] 3 4 = (3, 4) := by
  have hnm : ∀ s e, ¬ isMatchSpan ["a"] ["b"] s e := by
    intro s e hm
    obtain ⟨h1, h2, h3⟩ := hm
    simp only [List.length_cons, List.length_nil] at h2
    have he : e = 0 := by omega
    have hs : s = 0 := by omega
    subst he
    subst hs
    revert h3
    decide
  exact ⟨⟨0, 1, by decide⟩,
    (spec_c2_improve_answer_span ["ab", "c", "ab"] ["a", "bc"] 5 7).1 ⟨0, 1, by decide⟩,
    hnm,
    (spec_c2_improve_answer_span ["a"] ["b"] 3 4).2 hnm⟩
